import Mathlib

/-
  Verification of the WebWindRider stock-heatmap layout core.

  The embedding uses exact rationals for JavaScript numbers; a small
  JSNum type additionally models the IEEE NaN value and its comparison
  semantics where a claim depends on it.  Pure functions from
  src/utils/treemap.ts and the two heatmap components are translated
  directly; the proportional-area partitioner itself lives in the d3
  library, outside this repository, and is therefore modelled from the
  specification text.
-/

namespace WindRider

/-- Axis-aligned rectangle, as in the RectBounds data model of the spec
and the x0/y0/x1/y1 fields d3 attaches to treemap nodes. -/
structure RectBounds where
  x0 : ℚ
  y0 : ℚ
  x1 : ℚ
  y1 : ℚ
deriving DecidableEq, Repr

def RectBounds.width (r : RectBounds) : ℚ := r.x1 - r.x0

def RectBounds.height (r : RectBounds) : ℚ := r.y1 - r.y0

def RectBounds.area (r : RectBounds) : ℚ := r.width * r.height

/-- A rectangle is well formed when both extents are nonnegative. -/
def RectBounds.valid (r : RectBounds) : Prop := r.x0 ≤ r.x1 ∧ r.y0 ≤ r.y1

/-- Mirror a rectangle across the main diagonal (swap the two axes). -/
def RectBounds.transpose (r : RectBounds) : RectBounds := ⟨r.y0, r.x0, r.y1, r.x1⟩

/-- Containment of one rectangle in another. -/
def RectBounds.inside (r s : RectBounds) : Prop :=
  s.x0 ≤ r.x0 ∧ r.x1 ≤ s.x1 ∧ s.y0 ≤ r.y0 ∧ r.y1 ≤ s.y1

/-- Two axis-aligned rectangles overlap in positive area exactly when
their open interiors intersect. -/
def RectBounds.overlaps (r s : RectBounds) : Prop :=
  max r.x0 s.x0 < min r.x1 s.x1 ∧ max r.y0 s.y0 < min r.y1 s.y1

/-- A stock record, from shared/types.ts. -/
structure Stock where
  code : String
  name : String
  price : ℚ
  change : ℚ
  changePercent : ℚ
  marketCap : ℚ
  volume : ℚ
deriving DecidableEq, Repr

/-- A JavaScript number that may be the IEEE NaN; finite doubles are
represented exactly as rationals. -/
inductive JSNum where
  | nan : JSNum
  | num : ℚ → JSNum
deriving DecidableEq, Repr

/-- JavaScript strict less-than: any comparison involving NaN is false. -/
def JSNum.lt : JSNum → JSNum → Bool
  | JSNum.num a, JSNum.num b => decide (a < b)
  | _, _ => false

/-- JavaScript strict greater-than: any comparison involving NaN is false. -/
def JSNum.gt : JSNum → JSNum → Bool
  | JSNum.num a, JSNum.num b => decide (b < a)
  | _, _ => false

/-- JavaScript greater-or-equal: any comparison involving NaN is false. -/
def JSNum.ge : JSNum → JSNum → Bool
  | JSNum.num a, JSNum.num b => decide (b ≤ a)
  | _, _ => false

/-- JavaScript Math.abs, which maps NaN to NaN and negates a negative
finite value. -/
def JSNum.abs : JSNum → JSNum
  | JSNum.nan => JSNum.nan
  | JSNum.num a => JSNum.num (if a < 0 then -a else a)

/-- Color for a signed percentage change, from getColorByChangePercent in
src/utils/treemap.ts (the getColor closure in AllSectorsHeatmap.tsx is the
same code, line for line). -/
def getColorByChangePercent (changePercent : ℚ) : String :=
  if |changePercent| < 1/100 then
    "#6B7280"
  else if 0 < changePercent then
    if 4 ≤ changePercent then "#DC2626"
    else if 3 ≤ changePercent then "#EF4444"
    else if 2 ≤ changePercent then "#F87171"
    else if 1 ≤ changePercent then "#FCA5A5"
    else "#FEE2E2"
  else
    if 4 ≤ |changePercent| then "#059669"
    else if 3 ≤ |changePercent| then "#10B981"
    else if 2 ≤ |changePercent| then "#34D399"
    else if 1 ≤ |changePercent| then "#6EE7B7"
    else "#D1FAE5"

/-- The same color function translated with JavaScript NaN comparison
semantics, for inputs that may be NaN.  Branch structure follows the
source exactly: an if on abs < 0.01, then an if on changePercent > 0,
then a cascade of >= threshold tests. -/
def getColorByChangePercentJS (changePercent : JSNum) : String :=
  if (changePercent.abs.lt (JSNum.num (1/100))) then
    "#6B7280"
  else if changePercent.gt (JSNum.num 0) then
    if changePercent.ge (JSNum.num 4) then "#DC2626"
    else if changePercent.ge (JSNum.num 3) then "#EF4444"
    else if changePercent.ge (JSNum.num 2) then "#F87171"
    else if changePercent.ge (JSNum.num 1) then "#FCA5A5"
    else "#FEE2E2"
  else
    if changePercent.abs.ge (JSNum.num 4) then "#059669"
    else if changePercent.abs.ge (JSNum.num 3) then "#10B981"
    else if changePercent.abs.ge (JSNum.num 2) then "#34D399"
    else if changePercent.abs.ge (JSNum.num 1) then "#6EE7B7"
    else "#D1FAE5"

/-- The five warm colors, most saturated first. -/
def redLadder : List String := ["#DC2626", "#EF4444", "#F87171", "#FCA5A5", "#FEE2E2"]

/-- The five cool colors, most saturated first. -/
def greenLadder : List String := ["#059669", "#10B981", "#34D399", "#6EE7B7", "#D1FAE5"]

/-- All eleven color tokens the policy can emit. -/
def colorPalette : List String := "#6B7280" :: redLadder ++ greenLadder

/-- Occurrence of one character list inside another, by scanning. -/
def charsInclude (pat : List Char) : List Char → Bool
  | [] => pat.isEmpty
  | c :: t => pat.isPrefixOf (c :: t) || charsInclude pat t

/-- JavaScript substring containment test, as in name.includes of the
source, over the characters of the string. -/
def strIncludes (s pat : String) : Bool := charsInclude pat.toList s.toList

/-- JavaScript regular-expression test for a purely numeric name, the
source pattern being one-or-more digits anchored at both ends. -/
def isNumericName (s : String) : Bool := !s.isEmpty && s.toList.all Char.isDigit

/-- Name label of a stock cell, from the stock-text selection of
AllSectorsHeatmap.tsx: empty below the 30 by 15 minimum, otherwise the
name truncated to a width-dependent character budget, with special
handling for ST names and purely numeric names. -/
def stockNameLabel (width height : ℚ) (name : String) : String :=
  if width < 30 ∨ height < 15 then ""
  else
    let maxChars : ℤ := max 2 (min ⌊width / 12⌋ 8)
    if (name.length : ℤ) ≤ maxChars then name
    else if strIncludes name "ST" || strIncludes name "*ST" then
      name.take maxChars.toNat
    else if isNumericName name then
      if 4 < name.length then name.drop (name.length - 4) else name
    else
      name.take (maxChars - 1).toNat ++ "…"

/-- JavaScript toFixed with two digits: round to hundredths (to the
nearest, halves up) and render with a sign, an integer part and exactly
two decimals. -/
def toFixed2 (q : ℚ) : String :=
  let n : ℤ := round (q * 100)
  let sgn := if n < 0 then "-" else ""
  let m := n.natAbs
  sgn ++ toString (m / 100) ++ "." ++ (if m % 100 < 10 then "0" else "") ++ toString (m % 100)

/-- Percent label of a stock cell, from the stock-percent-text selection
of AllSectorsHeatmap.tsx: empty below the 40 by 25 minimum, otherwise the
sign-prefixed change formatted with two decimals. -/
def stockPercentLabel (width height : ℚ) (changePercent : ℚ) : String :=
  if width < 40 ∨ height < 25 then ""
  else (if 0 ≤ changePercent then "+" else "") ++ toFixed2 changePercent ++ "%"

/-- Fallback stock-detail URL built locally from the market inferred
from the leading character of the code, as in the catch branch of
handleStockDoubleClick in StockHeatmap.tsx. -/
def xueqiuFallbackUrl (code : String) : String :=
  let market := if code.startsWith "6" then "SH" else "SZ"
  "https://xueqiu.com/S/" ++ market ++ code

/-- Double-click handler of StockHeatmap.tsx, as a function of the
outcome of the external link resolution: the URL it opens.  On failure
the error is consumed and the locally built fallback URL is opened. -/
def stockHeatmapOpenedUrl (code : String) : Except String String → String
  | Except.ok url => url
  | Except.error _ => xueqiuFallbackUrl code

/-- Double-click handler of AllSectorsHeatmap.tsx, as a function of the
outcome of the external link resolution: the URL it opens, if any.  On
failure the error is consumed and only logged; no window is opened. -/
def allSectorsOpenedUrl (_code : String) : Except String String → Option String
  | Except.ok url => some url
  | Except.error _ => none

/-- Sum of the market capitalizations of a list of stocks, the reduce
that computes a sector node value in AllSectorsHeatmap.tsx. -/
def groupValue (stocks : List Stock) : ℚ := (stocks.map Stock.marketCap).sum

/-- Sector-level change aggregate of AllSectorsHeatmap.tsx: the sum of
the changePercent fields divided by the number of stocks.  The division
is the JavaScript one: for an empty list the numerator, an empty reduce,
is 0 and the length is 0, and 0 divided by 0 is NaN. -/
def groupChangePercent (stocks : List Stock) : JSNum :=
  if stocks.length = 0 then JSNum.nan
  else JSNum.num ((stocks.map Stock.changePercent).sum / stocks.length)

/-- A leaf of the rootData tree built in AllSectorsHeatmap.tsx. -/
structure TreemapLeaf where
  id : String
  name : String
  value : ℚ
  changePercent : ℚ
deriving DecidableEq, Repr

/-- A sector node of the rootData tree built in AllSectorsHeatmap.tsx. -/
structure TreemapGroup where
  id : String
  name : String
  value : ℚ
  changePercent : JSNum
  children : List TreemapLeaf
deriving DecidableEq, Repr

/-- One sector node of rootData, from the Object.entries map in
AllSectorsHeatmap.tsx: value is the summed market capitalization,
changePercent the plain mean, children one leaf per stock. -/
def buildGroup (sectorId sectorName : String) (stocks : List Stock) : TreemapGroup where
  id := sectorId
  name := sectorName
  value := groupValue stocks
  changePercent := groupChangePercent stocks
  children := stocks.map fun stock =>
    ⟨sectorId ++ "-" ++ stock.code, stock.name, stock.marketCap, stock.changePercent⟩

/-- A leaf of the per-sector treemap fed to d3, from shared/types.ts. -/
structure StockTreemap where
  code : String
  name : String
  value : ℚ
  changePercent : ℚ
  price : ℚ
deriving DecidableEq, Repr

/-- A sector treemap root, from shared/types.ts. -/
structure SectorTreemap where
  id : String
  name : String
  value : ℚ
  children : List StockTreemap
deriving DecidableEq, Repr

/-- Conversion of a stock list to treemap data, from
transformStocksToTreemap in src/utils/treemap.ts: one child per stock in
input order, and a root whose value is the reduce of the child values. -/
def transformStocksToTreemap (stocks : List Stock) (sectorName : String) : SectorTreemap :=
  let children : List StockTreemap := stocks.map fun stock =>
    ⟨stock.code, stock.name, stock.marketCap, stock.changePercent, stock.price⟩
  let totalValue := (children.map StockTreemap.value).sum
  ⟨sectorName, sectorName, totalValue, children⟩

/-- Arithmetic mean of a list of rationals, stated from the spec words
so the builder aggregate can be compared against it. -/
def arithMean (l : List ℚ) : ℚ := l.sum / l.length

/-- Modelled from the spec: aspect ratio of one item of area a laid in a
strip of thickness t, the larger of the two side ratios. -/
def aspect (t a : ℚ) : ℚ := max (t * t / a) (a / (t * t))

/-- Modelled from the spec: worst aspect ratio over a run of areas laid
along a side of the stated length, the strip thickness being the run
total divided by that length. -/
def worst (side : ℚ) (run : List ℚ) : ℚ :=
  ((run.map (aspect (run.sum / side))).foldr max 0)

/-- Modelled from the spec: how many further items join the current run.
An item is added while doing so does not worsen the worst aspect ratio,
ties favoring the longer run. -/
def growRun (side : ℚ) (run : List ℚ) : List ℚ → Nat
  | [] => 0
  | a :: rest =>
    if worst side (run ++ [a]) ≤ worst side run then 1 + growRun side (run ++ [a]) rest
    else 0

/-- Modelled from the spec: length of the run stripped off the front of
the remaining items; the run always holds at least the first item. -/
def chooseRun (side : ℚ) : List ℚ → Nat
  | [] => 0
  | a :: rest => 1 + growRun side [a] rest

/-- Modelled from the spec: stack items of the given areas downward in a
vertical strip between abscissas xl and xr, each item's height being its
area divided by the strip thickness. -/
def layDown (xl xr y : ℚ) : List ℚ → List RectBounds
  | [] => []
  | a :: rest => ⟨xl, y, xr, y + a / (xr - xl)⟩ :: layDown xl xr (y + a / (xr - xl)) rest

/-- Modelled from the spec: rectangles of a run stripped off the left
edge of the remaining rectangle as one vertical strip. -/
def stripLeftRects (rect : RectBounds) (run : List ℚ) : List RectBounds :=
  layDown rect.x0 (rect.x0 + run.sum / rect.height) rect.y0 run

/-- Modelled from the spec: what remains of the rectangle after a run is
stripped off its left edge. -/
def stripLeftRem (rect : RectBounds) (run : List ℚ) : RectBounds :=
  ⟨rect.x0 + run.sum / rect.height, rect.y0, rect.x1, rect.y1⟩

/-- Modelled from the spec: rectangles of a run stripped off the top
edge, obtained from the left-strip case by transposition. -/
def stripTopRects (rect : RectBounds) (run : List ℚ) : List RectBounds :=
  (stripLeftRects rect.transpose run).map RectBounds.transpose

/-- Modelled from the spec: what remains of the rectangle after a run is
stripped off its top edge. -/
def stripTopRem (rect : RectBounds) (run : List ℚ) : RectBounds :=
  (stripLeftRem rect.transpose run).transpose

/-- Modelled from the spec: the squarified subdivision of a rectangle
among the given target areas, in order.  The run laid against the shorter
side is chosen by aspect ratio, the rest of the rectangle is subdivided
recursively.  No rounding is applied mid-recursion. -/
def squarify (areas : List ℚ) (rect : RectBounds) : List RectBounds :=
  match areas with
  | [] => []
  | a :: as =>
    if rect.height ≤ rect.width then
      let k := chooseRun rect.height (a :: as)
      stripLeftRects rect ((a :: as).take k) ++
        squarify ((a :: as).drop k) (stripLeftRem rect ((a :: as).take k))
    else
      let k := chooseRun rect.width (a :: as)
      stripTopRects rect ((a :: as).take k) ++
        squarify ((a :: as).drop k) (stripTopRem rect ((a :: as).take k))
termination_by areas.length
decreasing_by
  all_goals simp [chooseRun]

/-- Modelled from the spec: the interior of a bounding rectangle after
the padding is taken off every side. -/
def paddedInterior (bounds : RectBounds) (padding : ℚ) : RectBounds :=
  ⟨bounds.x0 + padding, bounds.y0 + padding, bounds.x1 - padding, bounds.y1 - padding⟩

/-- Modelled from the spec: the proportional-area partitioner, which in
the repository is the d3 treemap call.  Empty input gives empty output; a
padded interior of non-positive width or height gives one degenerate
rectangle per weight; all-zero weights are replaced by uniform weight
one; otherwise each weight is turned into its proportional share of the
interior area and the squarified subdivision is returned. -/
def partition (weights : List ℚ) (bounds : RectBounds) (padding : ℚ) : List RectBounds :=
  if weights = [] then []
  else if (paddedInterior bounds padding).width ≤ 0 ∨
      (paddedInterior bounds padding).height ≤ 0 then
    weights.map fun _ => ⟨(paddedInterior bounds padding).x0, (paddedInterior bounds padding).y0,
      (paddedInterior bounds padding).x0, (paddedInterior bounds padding).y0⟩
  else if weights.sum = 0 then
    squarify ((weights.map fun _ => (1 : ℚ)).map fun w =>
      w / (weights.map fun _ => (1 : ℚ)).sum * (paddedInterior bounds padding).area)
      (paddedInterior bounds padding)
  else
    squarify (weights.map fun w => w / weights.sum * (paddedInterior bounds padding).area)
      (paddedInterior bounds padding)

/-- One entry of the sectorsData record fed to AllSectorsHeatmap. -/
structure SectorEntry where
  sectorId : String
  sectorName : String
  stocks : List Stock
deriving DecidableEq, Repr

/-- The layout recomputation of AllSectorsHeatmap.tsx as one pure
function from the input records and the canvas size to the id-to-
rectangle mapping: build the sector nodes, sort them descending by
value with a stable sort, partition the canvas among sectors with the
outer padding of 6, then per sector reserve the 30 pixel header and the
8 pixels of side padding, sort the stocks descending by value and
partition the residual rectangle, offsetting the stock rectangles by
the sector origin.  A sector whose residual space is non-positive gets
degenerate stock rectangles.  The partitioner is the spec-modelled one
standing in for the d3 treemap call. -/
def computeLayout (entries : List SectorEntry) (width height : ℚ) :
    List (String × RectBounds) :=
  let groups := entries.map fun e => buildGroup e.sectorId e.sectorName e.stocks
  let sorted := groups.mergeSort fun a b => decide (b.value ≤ a.value)
  let outer := partition (sorted.map TreemapGroup.value) ⟨0, 0, width, height⟩ 6
  (sorted.zip outer).flatMap fun gr =>
    let g := gr.1
    let r := gr.2
    let sectorW := r.width
    let sectorH := r.height - 30
    if sectorW ≤ 0 ∨ sectorH ≤ 0 then
      (g.id, r) :: g.children.map fun c => (c.id, (⟨r.x0, r.y0, r.x0, r.y0⟩ : RectBounds))
    else
      let sortedKids := g.children.mergeSort fun a b => decide (b.value ≤ a.value)
      let inner := partition (sortedKids.map TreemapLeaf.value) ⟨0, 0, sectorW - 8, sectorH⟩ 1
      (g.id, r) :: (sortedKids.zip inner).map fun cr =>
        (cr.1.id, (⟨r.x0 + 4 + cr.2.x0, r.y0 + 30 + cr.2.y0,
                    r.x0 + 4 + cr.2.x1, r.y0 + 30 + cr.2.y1⟩ : RectBounds))

/-! Helper lemmas about rectangles, sums and divisions. -/

lemma transpose_area (r : RectBounds) : r.transpose.area = r.area := by
  simp [RectBounds.transpose, RectBounds.area, RectBounds.width, RectBounds.height, mul_comm]

lemma transpose_valid {r : RectBounds} : r.transpose.valid ↔ r.valid := by
  simp [RectBounds.transpose, RectBounds.valid, and_comm]

lemma transpose_involutive (r : RectBounds) : r.transpose.transpose = r := rfl

lemma transpose_inside {r s : RectBounds} : r.transpose.inside s.transpose ↔ r.inside s := by
  simp only [RectBounds.transpose, RectBounds.inside]
  tauto

lemma transpose_overlaps {r s : RectBounds} : r.transpose.overlaps s.transpose ↔ r.overlaps s := by
  simp only [RectBounds.transpose, RectBounds.overlaps]
  tauto

lemma inside_trans {r s t : RectBounds} (h1 : r.inside s) (h2 : s.inside t) : r.inside t := by
  obtain ⟨a1, a2, a3, a4⟩ := h1
  obtain ⟨b1, b2, b3, b4⟩ := h2
  exact ⟨le_trans b1 a1, le_trans a2 b2, le_trans b3 a3, le_trans a4 b4⟩

lemma not_overlaps_of_xsep {r s : RectBounds} (h : r.x1 ≤ s.x0) : ¬ r.overlaps s := by
  rintro ⟨hx, -⟩
  have h1 : min r.x1 s.x1 ≤ r.x1 := min_le_left _ _
  have h2 : s.x0 ≤ max r.x0 s.x0 := le_max_right _ _
  linarith

lemma not_overlaps_of_ysep {r s : RectBounds} (h : r.y1 ≤ s.y0) : ¬ r.overlaps s := by
  rintro ⟨-, hy⟩
  have h1 : min r.y1 s.y1 ≤ r.y1 := min_le_left _ _
  have h2 : s.y0 ≤ max r.y0 s.y0 := le_max_right _ _
  linarith

lemma div_le_div_nonneg_denom {a b t : ℚ} (hab : a ≤ b) (ht : 0 ≤ t) : a / t ≤ b / t := by
  rcases eq_or_lt_of_le ht with h0 | h0
  · simp [← h0]
  · exact (div_le_div_iff_of_pos_right h0).mpr hab

lemma forall_mem_right_of_forall₂ {α β : Type} {R : α → β → Prop} {P : β → Prop}
    (h : ∀ a b, R a b → P b) :
    ∀ {l : List α} {u : List β}, List.Forall₂ R l u → ∀ b ∈ u, P b := by
  intro l u hf
  induction hf with
  | nil => simp
  | cons hr _ ih =>
    intro b hb
    rcases List.mem_cons.mp hb with rfl | hb
    · exact h _ _ hr
    · exact ih _ hb

lemma sum_map_one {α : Type} (l : List α) : (l.map fun _ => (1 : ℚ)).sum = l.length := by
  induction l with
  | nil => simp
  | cons a rest ih => simp [ih, add_comm]

/-! The vertical strip: items stacked downward between two abscissas. -/

lemma layDown_spec (xl xr : ℚ) (hle : xl ≤ xr) :
    ∀ (run : List ℚ) (y : ℚ), (∀ a ∈ run, 0 ≤ a) → (xr - xl = 0 → ∀ a ∈ run, a = 0) →
      (layDown xl xr y run).length = run.length ∧
      List.Forall₂ (fun a r => r.area = a ∧ r.x0 = xl ∧ r.x1 = xr ∧ r.y0 ≤ r.y1 ∧
        y ≤ r.y0 ∧ r.y1 ≤ y + run.sum / (xr - xl)) run (layDown xl xr y run) ∧
      List.Pairwise (fun r s => r.y1 ≤ s.y0) (layDown xl xr y run) := by
  intro run
  induction run with
  | nil => intro y _ _; simp [layDown]
  | cons a rest ih =>
    intro y hnn hz
    have ha : 0 ≤ a := hnn a (List.mem_cons_self a rest)
    have hrest : ∀ b ∈ rest, 0 ≤ b := fun b hb => hnn b (List.mem_cons_of_mem a hb)
    have hz' : xr - xl = 0 → ∀ b ∈ rest, b = 0 :=
      fun h0 b hb => hz h0 b (List.mem_cons_of_mem a hb)
    have htnn : 0 ≤ xr - xl := by linarith
    have hdnn : 0 ≤ a / (xr - xl) := div_nonneg ha htnn
    obtain ⟨ihlen, ihfits, ihchain⟩ := ih (y + a / (xr - xl)) hrest hz'
    have hhead : RectBounds.area ⟨xl, y, xr, y + a / (xr - xl)⟩ = a := by
      simp only [RectBounds.area, RectBounds.width, RectBounds.height]
      rcases eq_or_ne (xr - xl) 0 with h0 | h0
      · have ha0 : a = 0 := hz h0 a (List.mem_cons_self a rest)
        simp [h0, ha0]
      · rw [add_sub_cancel_left, mul_comm, div_mul_cancel₀ _ h0]
    have hsumle : a / (xr - xl) ≤ (a :: rest).sum / (xr - xl) := by
      apply div_le_div_nonneg_denom _ htnn
      have : 0 ≤ rest.sum := List.sum_nonneg hrest
      simp only [List.sum_cons]
      linarith
    have htailbound : ∀ r : RectBounds,
        (y + a / (xr - xl)) ≤ r.y0 ∧ r.y1 ≤ (y + a / (xr - xl)) + rest.sum / (xr - xl) →
        y ≤ r.y0 ∧ r.y1 ≤ y + (a :: rest).sum / (xr - xl) := by
      rintro r ⟨h1, h2⟩
      constructor
      · linarith
      · have : (a :: rest).sum / (xr - xl) = a / (xr - xl) + rest.sum / (xr - xl) := by
          simp only [List.sum_cons]; rw [add_div]
        rw [this]; linarith
    refine ⟨by simp [layDown, ihlen], ?_, ?_⟩
    · show List.Forall₂ _ (a :: rest)
        (⟨xl, y, xr, y + a / (xr - xl)⟩ :: layDown xl xr (y + a / (xr - xl)) rest)
      refine List.Forall₂.cons ⟨hhead, rfl, rfl, by simpa using hdnn, le_refl _,
        (by show y + a / (xr - xl) ≤ y + (a :: rest).sum / (xr - xl); linarith)⟩ ?_
      refine ihfits.imp ?_
      rintro b r ⟨h1, h2, h3, h4, h5, h6⟩
      exact ⟨h1, h2, h3, h4, (htailbound r ⟨h5, h6⟩).1, (htailbound r ⟨h5, h6⟩).2⟩
    · show List.Pairwise _
        (⟨xl, y, xr, y + a / (xr - xl)⟩ :: layDown xl xr (y + a / (xr - xl)) rest)
      refine List.Pairwise.cons ?_ ihchain
      intro s hs
      have := forall_mem_right_of_forall₂
        (R := fun (b : ℚ) (r : RectBounds) => r.area = b ∧ r.x0 = xl ∧ r.x1 = xr ∧
          r.y0 ≤ r.y1 ∧ (y + a / (xr - xl)) ≤ r.y0 ∧
          r.y1 ≤ (y + a / (xr - xl)) + rest.sum / (xr - xl))
        (P := fun r : RectBounds => (y + a / (xr - xl)) ≤ r.y0)
        (fun _ r hr => hr.2.2.2.2.1) ihfits s hs
      simpa using this

/-! The full left strip: geometry of the emitted run and of the remaining
rectangle. -/

lemma stripLeft_spec (rect : RectBounds) (run : List ℚ) (hv : rect.valid)
    (hnn : ∀ a ∈ run, 0 ≤ a) (hsum : run.sum ≤ rect.area) :
    (stripLeftRects rect run).length = run.length ∧
    List.Forall₂ (fun a r => r.area = a ∧ r.valid ∧ r.inside rect) run (stripLeftRects rect run) ∧
    List.Pairwise (fun r s => ¬ r.overlaps s) (stripLeftRects rect run) ∧
    (stripLeftRem rect run).valid ∧
    (stripLeftRem rect run).area = rect.area - run.sum ∧
    (∀ r ∈ stripLeftRects rect run, ∀ s : RectBounds,
      s.inside (stripLeftRem rect run) → ¬ r.overlaps s) ∧
    (stripLeftRem rect run).inside rect := by
  obtain ⟨hx01, hy01⟩ := hv
  have hwnn : 0 ≤ rect.width := sub_nonneg.mpr hx01
  have hhnn : 0 ≤ rect.height := sub_nonneg.mpr hy01
  have hA : 0 ≤ run.sum := List.sum_nonneg hnn
  have harea : rect.area = rect.width * rect.height := rfl
  have ht0 : 0 ≤ run.sum / rect.height := div_nonneg hA hhnn
  have hA0_of_h0 : rect.height = 0 → run.sum = 0 := by
    intro h0
    have : rect.area = 0 := by rw [harea, h0, mul_zero]
    linarith
  have htw : run.sum / rect.height ≤ rect.width := by
    rcases eq_or_lt_of_le hhnn with h0 | h0
    · rw [hA0_of_h0 h0.symm, zero_div]; exact hwnn
    · rw [div_le_iff₀ h0]; rw [harea] at hsum; exact hsum
  have hz0 : (rect.x0 + run.sum / rect.height) - rect.x0 = 0 → ∀ a ∈ run, a = 0 := by
    intro h0 a ha
    have ht00 : run.sum / rect.height = 0 := by linarith
    have hs0 : run.sum = 0 := by
      rcases eq_or_lt_of_le hhnn with hh0 | hh0
      · exact hA0_of_h0 hh0.symm
      · rcases div_eq_zero_iff.mp ht00 with h | h
        · exact h
        · exact absurd h (ne_of_gt hh0)
    exact List.all_zero_of_le_zero_le_of_sum_eq_zero hnn hs0 ha
  have hdivh : run.sum / (run.sum / rect.height) ≤ rect.height := by
    rcases eq_or_ne run.sum 0 with hs0 | hs0
    · rw [hs0, zero_div]; exact hhnn
    · have hhpos : 0 < rect.height := by
        rcases eq_or_lt_of_le hhnn with h0 | h0
        · exact absurd (hA0_of_h0 h0.symm) hs0
        · exact h0
      have : run.sum / (run.sum / rect.height) = rect.height := by
        rw [div_div_eq_mul_div, mul_comm, mul_div_assoc, div_self hs0, mul_one]
      rw [this]
  have hld := layDown_spec rect.x0 (rect.x0 + run.sum / rect.height) (by linarith) run rect.y0
    hnn hz0
  obtain ⟨hlen, hfits, hchain⟩ := hld
  have hxx : rect.x0 + run.sum / rect.height - rect.x0 = run.sum / rect.height := by ring
  rw [hxx] at hfits
  have hstripped : List.Forall₂
      (fun a r => r.area = a ∧ r.valid ∧ r.inside rect ∧ r.x1 = rect.x0 + run.sum / rect.height)
      run (stripLeftRects rect run) := by
    refine hfits.imp ?_
    rintro a r ⟨h1, h2, h3, h4, h5, h6⟩
    have hy1 : r.y1 ≤ rect.y1 := by
      have : rect.y0 + run.sum / (run.sum / rect.height) ≤ rect.y0 + rect.height := by linarith
      have hy1r : rect.y0 + rect.height = rect.y1 := by
        simp [RectBounds.height]
      calc r.y1 ≤ rect.y0 + run.sum / (run.sum / rect.height) := h6
        _ ≤ rect.y0 + rect.height := this
        _ = rect.y1 := hy1r
    refine ⟨h1, ⟨?_, h4⟩, ⟨?_, ?_, h5, hy1⟩, h3⟩
    · rw [h2, h3]; linarith
    · rw [h2]
    · rw [h3]; rw [harea] at hsum; simp [RectBounds.width] at htw ⊢; linarith
  refine ⟨hlen, ?_, ?_, ?_, ?_, ?_, ?_⟩
  · exact hstripped.imp fun a r ⟨h1, h2, h3, _⟩ => ⟨h1, h2, h3⟩
  · exact hchain.imp fun h => not_overlaps_of_ysep h
  · constructor
    · show rect.x0 + run.sum / rect.height ≤ rect.x1
      simp [RectBounds.width] at htw; linarith
    · exact hy01
  · show (rect.x1 - (rect.x0 + run.sum / rect.height)) * (rect.y1 - rect.y0)
      = rect.area - run.sum
    have hth : run.sum / rect.height * rect.height = run.sum := by
      rcases eq_or_lt_of_le hhnn with h0 | h0
      · rw [← h0, mul_zero, hA0_of_h0 h0.symm]
      · exact div_mul_cancel₀ _ (ne_of_gt h0)
    have : rect.y1 - rect.y0 = rect.height := rfl
    rw [this, harea]
    simp only [RectBounds.width]
    nlinarith [hth]
  · intro r hr s hins
    have hr1 : r.x1 = rect.x0 + run.sum / rect.height := by
      have := forall_mem_right_of_forall₂
        (R := fun (a : ℚ) (r : RectBounds) => r.area = a ∧ r.valid ∧ r.inside rect ∧
          r.x1 = rect.x0 + run.sum / rect.height)
        (P := fun r : RectBounds => r.x1 = rect.x0 + run.sum / rect.height)
        (fun _ _ h => h.2.2.2) hstripped r hr
      exact this
    apply not_overlaps_of_xsep
    rw [hr1]
    exact hins.1
  · refine ⟨?_, le_refl _, le_refl _, le_refl _⟩
    show rect.x0 ≤ rect.x0 + run.sum / rect.height
    linarith

/-! The top strip, by transposition of the left strip. -/

lemma stripTop_spec (rect : RectBounds) (run : List ℚ) (hv : rect.valid)
    (hnn : ∀ a ∈ run, 0 ≤ a) (hsum : run.sum ≤ rect.area) :
    (stripTopRects rect run).length = run.length ∧
    List.Forall₂ (fun a r => r.area = a ∧ r.valid ∧ r.inside rect) run (stripTopRects rect run) ∧
    List.Pairwise (fun r s => ¬ r.overlaps s) (stripTopRects rect run) ∧
    (stripTopRem rect run).valid ∧
    (stripTopRem rect run).area = rect.area - run.sum ∧
    (∀ r ∈ stripTopRects rect run, ∀ s : RectBounds,
      s.inside (stripTopRem rect run) → ¬ r.overlaps s) ∧
    (stripTopRem rect run).inside rect := by
  have hvT : rect.transpose.valid := transpose_valid.mpr hv
  have hsumT : run.sum ≤ rect.transpose.area := by rw [transpose_area]; exact hsum
  obtain ⟨hlen, hfits, hdisj, hremv, hrema, hsep, hremin⟩ :=
    stripLeft_spec rect.transpose run hvT hnn hsumT
  refine ⟨?_, ?_, ?_, ?_, ?_, ?_, ?_⟩
  · simp [stripTopRects, hlen]
  · show List.Forall₂ _ run ((stripLeftRects rect.transpose run).map RectBounds.transpose)
    rw [List.forall₂_map_right_iff]
    refine hfits.imp ?_
    rintro a r ⟨h1, h2, h3⟩
    refine ⟨by rw [transpose_area, h1], transpose_valid.mpr h2, ?_⟩
    have : r.transpose.inside rect.transpose.transpose ↔ r.inside rect.transpose :=
      transpose_inside
    rw [transpose_involutive] at this
    exact this.mpr h3
  · show List.Pairwise _ ((stripLeftRects rect.transpose run).map RectBounds.transpose)
    rw [List.pairwise_map]
    refine hdisj.imp ?_
    intro r s h
    intro hc
    exact h (transpose_overlaps.mp hc)
  · exact transpose_valid.mpr hremv
  · show (stripLeftRem rect.transpose run).transpose.area = rect.area - run.sum
    rw [transpose_area, hrema, transpose_area]
  · intro r hr s hins
    simp only [stripTopRects, List.mem_map] at hr
    obtain ⟨r0, hr0, rfl⟩ := hr
    have hsT : s.transpose.inside (stripLeftRem rect.transpose run) := by
      have : s.transpose.transpose.inside (stripLeftRem rect.transpose run).transpose ↔
          s.transpose.inside (stripLeftRem rect.transpose run) := transpose_inside
      rw [transpose_involutive] at this
      exact this.mp hins
    have hno := hsep r0 hr0 s.transpose hsT
    intro hc
    apply hno
    have : r0.transpose.overlaps s.transpose.transpose ↔ r0.overlaps s.transpose := by
      exact transpose_overlaps
    rw [transpose_involutive] at this
    exact this.mp hc
  · show (stripLeftRem rect.transpose run).transpose.inside rect
    have : (stripLeftRem rect.transpose run).transpose.inside rect.transpose.transpose ↔
        (stripLeftRem rect.transpose run).inside rect.transpose := transpose_inside
    rw [transpose_involutive] at this
    exact this.mpr hremin

/-! Combining a strip with the recursively tiled remainder. -/

lemma tile_combine {rect rem : RectBounds} {run rest : List ℚ}
    {out1 out2 : List RectBounds}
    (hlen1 : out1.length = run.length)
    (hfits1 : List.Forall₂ (fun a r => r.area = a ∧ r.valid ∧ r.inside rect) run out1)
    (hdisj1 : List.Pairwise (fun r s => ¬ r.overlaps s) out1)
    (hsep : ∀ r ∈ out1, ∀ s : RectBounds, s.inside rem → ¬ r.overlaps s)
    (hremin : rem.inside rect)
    (hlen2 : out2.length = rest.length)
    (hfits2 : List.Forall₂ (fun a r => r.area = a ∧ r.valid ∧ r.inside rem) rest out2)
    (hdisj2 : List.Pairwise (fun r s => ¬ r.overlaps s) out2) :
    (out1 ++ out2).length = (run ++ rest).length ∧
    List.Forall₂ (fun a r => r.area = a ∧ r.valid ∧ r.inside rect) (run ++ rest) (out1 ++ out2) ∧
    List.Pairwise (fun r s => ¬ r.overlaps s) (out1 ++ out2) := by
  refine ⟨by simp [hlen1, hlen2], ?_, ?_⟩
  · refine List.rel_append hfits1 (hfits2.imp ?_)
    rintro a r ⟨h1, h2, h3⟩
    exact ⟨h1, h2, inside_trans h3 hremin⟩
  · rw [List.pairwise_append]
    refine ⟨hdisj1, hdisj2, ?_⟩
    intro r hr s hs
    refine hsep r hr s ?_
    exact forall_mem_right_of_forall₂ (fun _ _ h => h.2.2) hfits2 s hs

/-! Main tiling lemma for the squarified subdivision: the output has one
rectangle per target area, each with exactly that area, all inside the
rectangle being subdivided, and no two overlapping in positive area. -/

lemma squarify_spec : ∀ (n : ℕ) (areas : List ℚ) (rect : RectBounds),
    areas.length ≤ n → rect.valid → (∀ a ∈ areas, 0 ≤ a) → areas.sum = rect.area →
    (squarify areas rect).length = areas.length ∧
    List.Forall₂ (fun a r => r.area = a ∧ r.valid ∧ r.inside rect) areas (squarify areas rect) ∧
    List.Pairwise (fun r s => ¬ r.overlaps s) (squarify areas rect) := by
  intro n
  induction n with
  | zero =>
    intro areas rect hlen _ _ _
    have : areas = [] := List.length_eq_zero.mp (Nat.le_zero.mp hlen)
    subst this
    rw [squarify]
    simp
  | succ n ih =>
    intro areas rect hlen hv hnn hsum
    match areas with
    | [] =>
      rw [squarify]
      simp
    | a :: as =>
      rw [squarify]
      by_cases hvw : rect.height ≤ rect.width
      · rw [if_pos hvw]
        have hk : 1 ≤ chooseRun rect.height (a :: as) := by
          simp [chooseRun]
        set k := chooseRun rect.height (a :: as) with hkdef
        set run := (a :: as).take k with hrundef
        set rest := (a :: as).drop k with hrestdef
        have hsplit : run ++ rest = a :: as := List.take_append_drop k (a :: as)
        have hsum2 : run.sum + rest.sum = (a :: as).sum := by
          rw [← List.sum_append, hsplit]
        have hnnrun : ∀ b ∈ run, 0 ≤ b := fun b hb => hnn b (List.take_subset k (a :: as) hb)
        have hnnrest : ∀ b ∈ rest, 0 ≤ b := fun b hb => hnn b (List.drop_subset k (a :: as) hb)
        have hrestsum : 0 ≤ rest.sum := List.sum_nonneg hnnrest
        have hrunsum : run.sum ≤ rect.area := by
          rw [← hsum]
          simp only [← hsum2]
          linarith
        obtain ⟨hlen1, hfits1, hdisj1, hremv, hrema, hsep, hremin⟩ :=
          stripLeft_spec rect run hv hnnrun hrunsum
        have hrestlen : rest.length ≤ n := by
          have : rest.length = (a :: as).length - k := by
            rw [hrestdef, List.length_drop]
          simp only [List.length_cons] at this hlen
          omega
        have hremarea : rest.sum = (stripLeftRem rect run).area := by
          rw [hrema, ← hsum]
          simp only [← hsum2]
          ring
        obtain ⟨hlen2, hfits2, hdisj2⟩ :=
          ih rest (stripLeftRem rect run) hrestlen hremv hnnrest hremarea
        have := tile_combine hlen1 hfits1 hdisj1 hsep hremin hlen2 hfits2 hdisj2
        rw [hsplit] at this
        exact this
      · rw [if_neg hvw]
        have hk : 1 ≤ chooseRun rect.width (a :: as) := by
          simp [chooseRun]
        set k := chooseRun rect.width (a :: as) with hkdef
        set run := (a :: as).take k with hrundef
        set rest := (a :: as).drop k with hrestdef
        have hsplit : run ++ rest = a :: as := List.take_append_drop k (a :: as)
        have hsum2 : run.sum + rest.sum = (a :: as).sum := by
          rw [← List.sum_append, hsplit]
        have hnnrun : ∀ b ∈ run, 0 ≤ b := fun b hb => hnn b (List.take_subset k (a :: as) hb)
        have hnnrest : ∀ b ∈ rest, 0 ≤ b := fun b hb => hnn b (List.drop_subset k (a :: as) hb)
        have hrestsum : 0 ≤ rest.sum := List.sum_nonneg hnnrest
        have hrunsum : run.sum ≤ rect.area := by
          rw [← hsum]
          simp only [← hsum2]
          linarith
        obtain ⟨hlen1, hfits1, hdisj1, hremv, hrema, hsep, hremin⟩ :=
          stripTop_spec rect run hv hnnrun hrunsum
        have hrestlen : rest.length ≤ n := by
          have : rest.length = (a :: as).length - k := by
            rw [hrestdef, List.length_drop]
          simp only [List.length_cons] at this hlen
          omega
        have hremarea : rest.sum = (stripTopRem rect run).area := by
          rw [hrema, ← hsum]
          simp only [← hsum2]
          ring
        obtain ⟨hlen2, hfits2, hdisj2⟩ :=
          ih rest (stripTopRem rect run) hrestlen hremv hnnrest hremarea
        have := tile_combine hlen1 hfits1 hdisj1 hsep hremin hlen2 hfits2 hdisj2
        rw [hsplit] at this
        exact this

/-! Length preservation holds with no hypotheses at all. -/

lemma layDown_length (xl xr : ℚ) : ∀ (run : List ℚ) (y : ℚ),
    (layDown xl xr y run).length = run.length := by
  intro run
  induction run with
  | nil => intro y; simp [layDown]
  | cons a rest ih => intro y; simp [layDown, ih]

lemma squarify_length : ∀ (n : ℕ) (areas : List ℚ) (rect : RectBounds),
    areas.length ≤ n → (squarify areas rect).length = areas.length := by
  intro n
  induction n with
  | zero =>
    intro areas rect hlen
    have : areas = [] := List.length_eq_zero.mp (Nat.le_zero.mp hlen)
    subst this
    rw [squarify]
    rfl
  | succ n ih =>
    intro areas rect hlen
    match areas with
    | [] => rw [squarify]; rfl
    | a :: as =>
      rw [squarify]
      have hdroplen : ∀ k : ℕ, 1 ≤ k → ((a :: as).drop k).length ≤ n := by
        intro k hk
        rw [List.length_drop]
        simp only [List.length_cons] at hlen ⊢
        omega
      by_cases hvw : rect.height ≤ rect.width
      · rw [if_pos hvw]
        have hk : 1 ≤ chooseRun rect.height (a :: as) := by simp [chooseRun]
        rw [List.length_append, ih _ _ (hdroplen _ hk)]
        simp only [stripLeftRects, layDown_length, List.length_take, List.length_drop]
        simp only [List.length_cons]
        omega
      · rw [if_neg hvw]
        have hk : 1 ≤ chooseRun rect.width (a :: as) := by simp [chooseRun]
        rw [List.length_append, ih _ _ (hdroplen _ hk)]
        simp only [stripTopRects, stripLeftRects, List.length_map, layDown_length,
          List.length_take, List.length_drop]
        simp only [List.length_cons]
        omega

lemma partition_length (weights : List ℚ) (bounds : RectBounds) (padding : ℚ) :
    (partition weights bounds padding).length = weights.length := by
  rw [partition]
  by_cases hne : weights = []
  · subst hne; simp
  · rw [if_neg hne]
    by_cases hdeg : (paddedInterior bounds padding).width ≤ 0 ∨
        (paddedInterior bounds padding).height ≤ 0
    · rw [if_pos hdeg, List.length_map]
    · rw [if_neg hdeg]
      by_cases hz : weights.sum = 0
      · rw [if_pos hz, squarify_length _ _ _ le_rfl]
        simp
      · rw [if_neg hz, squarify_length _ _ _ le_rfl]
        simp

/-! Further helpers for the partition theorems. -/

lemma sum_map_div_mul (l : List ℚ) (T A : ℚ) :
    (l.map fun w => w / T * A).sum = l.sum / T * A := by
  induction l with
  | nil => simp
  | cons a rest ih =>
    simp only [List.map_cons, List.sum_cons, ih]
    ring

lemma map_area_of_forall₂ : ∀ {l : List ℚ} {out : List RectBounds},
    List.Forall₂ (fun a r => RectBounds.area r = a) l out →
    out.map RectBounds.area = l := by
  intro l out h
  induction h with
  | nil => rfl
  | cons hr _ ih => simp [ih, hr]

/-! Claim theorems for the partitioner. -/

/-- C1: for a non-empty weight sequence of nonnegative weights with
positive total, inside a rectangle whose padded interior has positive
width and height, the partition tiles the padded interior: one rectangle
per weight, each rectangle of area exactly its weight share of the
interior area (so weights 500, 300, 200 give areas in ratio 5 to 3 to
2), the areas summing to the interior area exactly, and no two
rectangles overlapping in positive area. -/
theorem partition_tiles (weights : List ℚ) (bounds : RectBounds) (padding : ℚ)
    (hne : weights ≠ [])
    (hnn : ∀ w ∈ weights, 0 ≤ w)
    (hpos : 0 < weights.sum)
    (hw : 0 < (paddedInterior bounds padding).width)
    (hh : 0 < (paddedInterior bounds padding).height) :
    (partition weights bounds padding).length = weights.length ∧
    List.Forall₂ (fun w r => r.area = w / weights.sum * (paddedInterior bounds padding).area ∧
      r.valid ∧ r.inside (paddedInterior bounds padding))
      weights (partition weights bounds padding) ∧
    ((partition weights bounds padding).map RectBounds.area).sum
      = (paddedInterior bounds padding).area ∧
    List.Pairwise (fun r s => ¬ r.overlaps s) (partition weights bounds padding) := by
  have hsne : weights.sum ≠ 0 := ne_of_gt hpos
  have hdeg : ¬ ((paddedInterior bounds padding).width ≤ 0 ∨
      (paddedInterior bounds padding).height ≤ 0) := by
    push_neg
    exact ⟨hw, hh⟩
  have hpart : partition weights bounds padding =
      squarify (weights.map fun w => w / weights.sum * (paddedInterior bounds padding).area)
        (paddedInterior bounds padding) := by
    rw [partition, if_neg hne, if_neg hdeg, if_neg hsne]
  have hanng : 0 ≤ (paddedInterior bounds padding).area :=
    mul_nonneg (le_of_lt hw) (le_of_lt hh)
  have hareasnn : ∀ a ∈ (weights.map fun w =>
      w / weights.sum * (paddedInterior bounds padding).area), 0 ≤ a := by
    intro a ha
    obtain ⟨w, hw1, rfl⟩ := List.mem_map.mp ha
    exact mul_nonneg (div_nonneg (hnn w hw1) (le_of_lt hpos)) hanng
  have hareasum : (weights.map fun w =>
      w / weights.sum * (paddedInterior bounds padding).area).sum
      = (paddedInterior bounds padding).area := by
    rw [sum_map_div_mul, div_self hsne, one_mul]
  have hvalid : (paddedInterior bounds padding).valid := by
    have hw2 := hw
    have hh2 := hh
    simp only [RectBounds.width, RectBounds.height] at hw2 hh2
    exact ⟨by linarith, by linarith⟩
  obtain ⟨hL, hF, hP⟩ := squarify_spec
    (weights.map fun w => w / weights.sum * (paddedInterior bounds padding).area).length
    _ _ le_rfl hvalid hareasnn hareasum
  rw [← hpart] at hL hF hP
  rw [List.forall₂_map_left_iff] at hF
  refine ⟨by rw [hL, List.length_map], hF, ?_, hP⟩
  have hF2 : List.Forall₂ (fun a r => RectBounds.area r = a)
      (weights.map fun w => w / weights.sum * (paddedInterior bounds padding).area)
      (partition weights bounds padding) := by
    rw [List.forall₂_map_left_iff]
    exact hF.imp fun a r h => h.1
  rw [map_area_of_forall₂ hF2, hareasum]

/-- C1 witness: the Banking scenario, weights 500, 300 and 200 in a 400
by 300 rectangle with zero padding. -/
theorem partition_tiles_witness :
    (partition [500, 300, 200] ⟨0, 0, 400, 300⟩ 0).length = 3 ∧
    List.Forall₂ (fun w r => r.area = w / ([500, 300, 200] : List ℚ).sum *
        (paddedInterior ⟨0, 0, 400, 300⟩ 0).area ∧
      r.valid ∧ r.inside (paddedInterior ⟨0, 0, 400, 300⟩ 0))
      [500, 300, 200] (partition [500, 300, 200] ⟨0, 0, 400, 300⟩ 0) ∧
    ((partition [500, 300, 200] ⟨0, 0, 400, 300⟩ 0).map RectBounds.area).sum
      = (paddedInterior ⟨0, 0, 400, 300⟩ 0).area ∧
    List.Pairwise (fun r s => ¬ r.overlaps s) (partition [500, 300, 200] ⟨0, 0, 400, 300⟩ 0) := by
  have h := partition_tiles [500, 300, 200] ⟨0, 0, 400, 300⟩ 0 (by decide)
    (by intro w hw; fin_cases hw <;> norm_num) (by norm_num)
    (by norm_num [paddedInterior, RectBounds.width])
    (by norm_num [paddedInterior, RectBounds.height])
  simpa using h


/-- C3: the partitioner returns one rectangle per input weight, in input
order, with no re-sorting of its own: for any weight order, the rectangle
at index i has the area share of the weight at index i, and a zero
weight still owns the rectangle at its own index. -/
theorem partition_keeps_order (weights : List ℚ) (bounds : RectBounds) (padding : ℚ)
    (i : ℕ)
    (hnn : ∀ w ∈ weights, 0 ≤ w)
    (hpos : 0 < weights.sum)
    (hw : 0 < (paddedInterior bounds padding).width)
    (hh : 0 < (paddedInterior bounds padding).height)
    (hi : i < weights.length) :
    (∀ (ws : List ℚ) (b : RectBounds) (p : ℚ), (partition ws b p).length = ws.length) ∧
    ((partition weights bounds padding).getD i ⟨0, 0, 0, 0⟩).area
      = weights.getD i 0 / weights.sum * (paddedInterior bounds padding).area := by
  have hne : weights ≠ [] := by
    intro h
    rw [h] at hi
    exact Nat.not_lt_zero i hi
  obtain ⟨hL, hF, -, -⟩ := partition_tiles weights bounds padding hne hnn hpos hw hh
  refine ⟨fun ws b p => partition_length ws b p, ?_⟩
  have hi2 : i < (partition weights bounds padding).length := by rw [hL]; exact hi
  have hget := hF.get (i := i) hi hi2
  have e1 : (partition weights bounds padding).getD i ⟨0, 0, 0, 0⟩
      = (partition weights bounds padding).get ⟨i, hi2⟩ := by
    rw [List.getD_eq_getElem?_getD, List.getElem?_eq_getElem hi2]
    rfl
  have e2 : weights.getD i 0 = weights.get ⟨i, hi⟩ := by
    rw [List.getD_eq_getElem?_getD, List.getElem?_eq_getElem hi]
    rfl
  rw [e1, e2]
  exact hget.1

/-- C3 witness: an unsorted weight list holding a zero weight; the output
has one rectangle per weight and the zero weight at index 1 owns the
zero-area rectangle at index 1. -/
theorem partition_keeps_order_witness :
    (partition [200, 0, 500, 300] ⟨0, 0, 400, 300⟩ 0).length = 4 ∧
    ((partition [200, 0, 500, 300] ⟨0, 0, 400, 300⟩ 0).getD 1 ⟨0, 0, 0, 0⟩).area = 0 := by
  have h := partition_keeps_order [200, 0, 500, 300] ⟨0, 0, 400, 300⟩ 0 1
    (by intro w hw; fin_cases hw <;> norm_num) (by norm_num)
    (by norm_num [paddedInterior, RectBounds.width])
    (by norm_num [paddedInterior, RectBounds.height]) (by norm_num)
  refine ⟨by simpa using h.1 [200, 0, 500, 300] ⟨0, 0, 400, 300⟩ 0, ?_⟩
  have h2 := h.2
  have e : ([200, 0, 500, 300] : List ℚ).getD 1 0 = 0 := rfl
  rw [e, zero_div, zero_mul] at h2
  exact h2

/-- C4: partition edge cases.  Empty input gives empty output; an
all-zero weight list over a positive padded interior is split into equal
fractional shares, each item treated as uniform weight one; a padded
interior of non-positive width or height gives a degenerate point
rectangle for every weight. -/
theorem partition_edge_cases (weights : List ℚ) (bounds : RectBounds) (padding : ℚ) :
    partition [] bounds padding = [] ∧
    ((∀ w ∈ weights, w = 0) → weights ≠ [] →
      0 < (paddedInterior bounds padding).width →
      0 < (paddedInterior bounds padding).height →
      List.Forall₂ (fun _ r => RectBounds.area r
          = (paddedInterior bounds padding).area / (weights.length : ℚ))
        weights (partition weights bounds padding)) ∧
    ((paddedInterior bounds padding).width ≤ 0 ∨ (paddedInterior bounds padding).height ≤ 0 →
      partition weights bounds padding
        = weights.map fun _ => (⟨(paddedInterior bounds padding).x0,
            (paddedInterior bounds padding).y0, (paddedInterior bounds padding).x0,
            (paddedInterior bounds padding).y0⟩ : RectBounds)) := by
  refine ⟨by rw [partition]; simp, ?_, ?_⟩
  · intro hzero hne hw hh
    have hs0 : weights.sum = 0 := List.sum_eq_zero hzero
    have hdeg : ¬ ((paddedInterior bounds padding).width ≤ 0 ∨
        (paddedInterior bounds padding).height ≤ 0) := by
      push_neg
      exact ⟨hw, hh⟩
    rw [partition, if_neg hne, if_neg hdeg, if_pos hs0]
    have hlen1 : (weights.map fun _ => (1 : ℚ)).sum = (weights.length : ℚ) :=
      sum_map_one weights
    have hlenpos : 0 < (weights.length : ℚ) := by
      have : 0 < weights.length := List.length_pos.mpr hne
      exact_mod_cast this
    have hsumne : (weights.map fun _ => (1 : ℚ)).sum ≠ 0 := by
      rw [hlen1]
      exact ne_of_gt hlenpos
    have hanng : 0 ≤ (paddedInterior bounds padding).area :=
      mul_nonneg (le_of_lt hw) (le_of_lt hh)
    have hvalid : (paddedInterior bounds padding).valid := by
      have hw2 := hw
      have hh2 := hh
      simp only [RectBounds.width, RectBounds.height] at hw2 hh2
      exact ⟨by linarith, by linarith⟩
    have hareasnn : ∀ a ∈ ((weights.map fun _ => (1 : ℚ)).map fun w =>
        w / (weights.map fun _ => (1 : ℚ)).sum * (paddedInterior bounds padding).area),
        0 ≤ a := by
      intro a ha
      obtain ⟨w, hw1, rfl⟩ := List.mem_map.mp ha
      obtain ⟨x, -, rfl⟩ := List.mem_map.mp hw1
      exact mul_nonneg (div_nonneg (by norm_num) (by rw [hlen1]; exact le_of_lt hlenpos)) hanng
    have hareasum : ((weights.map fun _ => (1 : ℚ)).map fun w =>
        w / (weights.map fun _ => (1 : ℚ)).sum * (paddedInterior bounds padding).area).sum
        = (paddedInterior bounds padding).area := by
      rw [sum_map_div_mul, div_self hsumne, one_mul]
    obtain ⟨-, hF, -⟩ := squarify_spec
      ((weights.map fun _ => (1 : ℚ)).map fun w =>
        w / (weights.map fun _ => (1 : ℚ)).sum * (paddedInterior bounds padding).area).length
      _ _ le_rfl hvalid hareasnn hareasum
    rw [List.forall₂_map_left_iff, List.forall₂_map_left_iff] at hF
    refine hF.imp ?_
    rintro w r ⟨h1, -, -⟩
    rw [h1]
    show (1 : ℚ) / (weights.map fun _ => (1 : ℚ)).sum * (paddedInterior bounds padding).area
      = (paddedInterior bounds padding).area / (weights.length : ℚ)
    rw [hlen1, one_div, inv_mul_eq_div]
  · intro hdeg
    by_cases hne : weights = []
    · subst hne
      rw [partition]
      simp
    · rw [partition, if_neg hne, if_pos hdeg]

/-- C4 witness: the three edge cases at concrete inputs: the empty list,
the all-zero list of three weights in a 90 by 30 interior (each share
900), and a 5 by 5 rectangle swallowed entirely by padding 10. -/
theorem partition_edge_cases_witness :
    partition [] ⟨0, 0, 400, 300⟩ 2 = [] ∧
    List.Forall₂ (fun _ r => RectBounds.area r
        = (paddedInterior ⟨0, 0, 90, 30⟩ 0).area / (([0, 0, 0] : List ℚ).length : ℚ))
      ([0, 0, 0] : List ℚ) (partition [0, 0, 0] ⟨0, 0, 90, 30⟩ 0) ∧
    partition [1, 2] ⟨0, 0, 5, 5⟩ 10
      = [⟨10, 10, 10, 10⟩, ⟨10, 10, 10, 10⟩] := by
  refine ⟨(partition_edge_cases [] ⟨0, 0, 400, 300⟩ 2).1, ?_, ?_⟩
  · exact (partition_edge_cases [0, 0, 0] ⟨0, 0, 90, 30⟩ 0).2.1
      (by
        intro w hw
        simp only [List.mem_cons, List.not_mem_nil, or_false] at hw
        rcases hw with rfl | rfl | rfl <;> rfl) (by decide)
      (by norm_num [paddedInterior, RectBounds.width])
      (by norm_num [paddedInterior, RectBounds.height])
  · have h := (partition_edge_cases [1, 2] ⟨0, 0, 5, 5⟩ 10).2.2
      (by norm_num [paddedInterior, RectBounds.width])
    rw [h]
    simp only [paddedInterior, List.map_cons, List.map_nil]
    norm_num [RectBounds.mk.injEq]


/-! Claim theorems for the orchestrator, the hierarchy builder and the
interaction layer. -/

/-- C2: the layout computation is deterministic: two runs of the
orchestrator on identical input records and identical canvas dimensions
produce identical id-to-rectangle mappings.  The embedded orchestrator
is a pure function of its inputs, mirroring the absence of any hidden
state, randomness or cross-call memoization in the recompute effect. -/
theorem computeLayout_deterministic (e1 e2 : List SectorEntry) (w1 w2 h1 h2 : ℚ)
    (he : e1 = e2) (hw : w1 = w2) (hh : h1 = h2) :
    computeLayout e1 w1 h1 = computeLayout e2 w2 h2 := by
  subst he
  subst hw
  subst hh
  rfl

/-- C2 witness: two runs on one concrete two-stock sector agree. -/
theorem computeLayout_deterministic_witness :
    computeLayout [⟨"bank", "银行", [⟨"600519", "贵州茅台", 1800, 10, 5/2, 21000, 100⟩,
        ⟨"601398", "工商银行", 5, 1/10, -(3/2), 18000, 50⟩]⟩] 1200 800
      = computeLayout [⟨"bank", "银行", [⟨"600519", "贵州茅台", 1800, 10, 5/2, 21000, 100⟩,
        ⟨"601398", "工商银行", 5, 1/10, -(3/2), 18000, 50⟩]⟩] 1200 800 :=
  computeLayout_deterministic _ _ _ _ _ _ rfl rfl rfl

/-- C5: for a non-empty group the builder sets the group value to the
exact sum of the leaf market capitalizations and the group changePercent
to the unweighted arithmetic mean of the leaf changePercent values; the
per-sector treemap root value is likewise the sum of its leaf values. -/
theorem buildGroup_aggregates (sectorId sectorName : String) (stocks : List Stock)
    (hne : stocks ≠ []) :
    (buildGroup sectorId sectorName stocks).value = (stocks.map Stock.marketCap).sum ∧
    (buildGroup sectorId sectorName stocks).changePercent
      = JSNum.num (arithMean (stocks.map Stock.changePercent)) ∧
    (transformStocksToTreemap stocks sectorName).value = (stocks.map Stock.marketCap).sum := by
  refine ⟨rfl, ?_, ?_⟩
  · show groupChangePercent stocks = _
    rw [groupChangePercent, if_neg (by rw [List.length_eq_zero]; exact hne)]
    rw [arithMean, List.length_map]
  · show ((stocks.map fun stock =>
        (⟨stock.code, stock.name, stock.marketCap, stock.changePercent, stock.price⟩ :
          StockTreemap)).map StockTreemap.value).sum = _
    rw [List.map_map]
    rfl

/-- C5 witness: a concrete two-stock sector. -/
theorem buildGroup_aggregates_witness :
    (buildGroup "bank" "银行" [⟨"600519", "贵州茅台", 1800, 10, 5/2, 21000, 100⟩,
        ⟨"601398", "工商银行", 5, 1/10, -(3/2), 18000, 50⟩]).value
      = (([⟨"600519", "贵州茅台", 1800, 10, 5/2, 21000, 100⟩,
          ⟨"601398", "工商银行", 5, 1/10, -(3/2), 18000, 50⟩] : List Stock).map
            Stock.marketCap).sum ∧
    (buildGroup "bank" "银行" [⟨"600519", "贵州茅台", 1800, 10, 5/2, 21000, 100⟩,
        ⟨"601398", "工商银行", 5, 1/10, -(3/2), 18000, 50⟩]).changePercent
      = JSNum.num (arithMean (([⟨"600519", "贵州茅台", 1800, 10, 5/2, 21000, 100⟩,
          ⟨"601398", "工商银行", 5, 1/10, -(3/2), 18000, 50⟩] : List Stock).map
            Stock.changePercent)) ∧
    (transformStocksToTreemap [⟨"600519", "贵州茅台", 1800, 10, 5/2, 21000, 100⟩,
        ⟨"601398", "工商银行", 5, 1/10, -(3/2), 18000, 50⟩] "银行").value
      = (([⟨"600519", "贵州茅台", 1800, 10, 5/2, 21000, 100⟩,
          ⟨"601398", "工商银行", 5, 1/10, -(3/2), 18000, 50⟩] : List Stock).map
            Stock.marketCap).sum :=
  buildGroup_aggregates "bank" "银行" _ (List.cons_ne_nil _ _)

/-- C9: the group changePercent aggregate of an empty group is the
JavaScript division of 0 by 0, namely NaN; the aggregate is NaN exactly
on the empty group, so the arithmetic mean is well defined only when
every group holds at least one leaf, and nothing guards the empty
case. -/
theorem emptyGroup_changePercent_nan (sectorId sectorName : String) (stocks : List Stock) :
    (buildGroup sectorId sectorName []).changePercent = JSNum.nan ∧
    ((buildGroup sectorId sectorName stocks).changePercent = JSNum.nan ↔ stocks = []) := by
  refine ⟨rfl, ?_⟩
  show groupChangePercent stocks = JSNum.nan ↔ _
  rw [groupChangePercent]
  by_cases h : stocks.length = 0
  · rw [if_pos h]
    simp [List.length_eq_zero.mp h]
  · rw [if_neg h]
    constructor
    · intro h1
      exact absurd h1 (by simp)
    · intro h2
      subst h2
      exact absurd rfl h

/-- C8 counterexample: in AllSectorsHeatmap, a failed link resolution on
a double-clicked leaf opens nothing at all; in particular it does not
open the locally built fallback URL, refuting the claim that every
double-activation handler substitutes the fallback on failure. -/
theorem allSectors_no_fallback_counterexample :
    allSectorsOpenedUrl "600519" (Except.error "resolution failed") = none ∧
    (none : Option String) ≠ some (xueqiuFallbackUrl "600519") := by
  refine ⟨rfl, ?_⟩
  intro h
  exact Option.noConfusion h

/-- C8 amended: both handlers catch the resolution failure, so no
exception escapes; the StockHeatmap handler then opens the fallback URL
built from the market inferred from the leading character of the code,
while the AllSectorsHeatmap handler only logs and opens nothing. -/
theorem doubleClick_failure_fallback (code msg url : String) :
    stockHeatmapOpenedUrl code (Except.error msg) = xueqiuFallbackUrl code ∧
    stockHeatmapOpenedUrl code (Except.ok url) = url ∧
    allSectorsOpenedUrl code (Except.error msg) = none ∧
    allSectorsOpenedUrl code (Except.ok url) = some url :=
  ⟨rfl, rfl, rfl, rfl⟩

/-- C10: the color policy is total and lands in a fixed palette of
exactly eleven tokens, one gray, five reds and five greens, each of
which is attained; the NaN input falls through every comparison into
the final branch of the negative ladder and yields the least saturated
green, not the neutral gray. -/
theorem colorPolicy_total_eleven :
    (∀ v : JSNum, getColorByChangePercentJS v ∈ colorPalette) ∧
    colorPalette.Nodup ∧
    colorPalette.length = 11 ∧
    (∀ t ∈ colorPalette, ∃ v : JSNum, getColorByChangePercentJS v = t) ∧
    getColorByChangePercentJS JSNum.nan = "#D1FAE5" ∧
    "#D1FAE5" ∈ greenLadder ∧
    "#D1FAE5" ≠ "#6B7280" := by
  refine ⟨?_, by decide, by decide, ?_, rfl, by decide, by decide⟩
  · intro v
    rw [getColorByChangePercentJS]
    split_ifs <;> simp [colorPalette, redLadder, greenLadder]
  · intro t ht
    simp only [colorPalette, redLadder, greenLadder] at ht
    fin_cases ht
    · exact ⟨JSNum.num 0, by
        simp only [getColorByChangePercentJS, JSNum.abs, JSNum.lt, JSNum.gt, JSNum.ge]
        norm_num⟩
    · exact ⟨JSNum.num 4, by
        simp only [getColorByChangePercentJS, JSNum.abs, JSNum.lt, JSNum.gt, JSNum.ge]
        norm_num⟩
    · exact ⟨JSNum.num 3, by
        simp only [getColorByChangePercentJS, JSNum.abs, JSNum.lt, JSNum.gt, JSNum.ge]
        norm_num⟩
    · exact ⟨JSNum.num 2, by
        simp only [getColorByChangePercentJS, JSNum.abs, JSNum.lt, JSNum.gt, JSNum.ge]
        norm_num⟩
    · exact ⟨JSNum.num 1, by
        simp only [getColorByChangePercentJS, JSNum.abs, JSNum.lt, JSNum.gt, JSNum.ge]
        norm_num⟩
    · exact ⟨JSNum.num (1/2), by
        simp only [getColorByChangePercentJS, JSNum.abs, JSNum.lt, JSNum.gt, JSNum.ge]
        norm_num⟩
    · exact ⟨JSNum.num (-4), by
        simp only [getColorByChangePercentJS, JSNum.abs, JSNum.lt, JSNum.gt, JSNum.ge]
        norm_num⟩
    · exact ⟨JSNum.num (-3), by
        simp only [getColorByChangePercentJS, JSNum.abs, JSNum.lt, JSNum.gt, JSNum.ge]
        norm_num⟩
    · exact ⟨JSNum.num (-2), by
        simp only [getColorByChangePercentJS, JSNum.abs, JSNum.lt, JSNum.gt, JSNum.ge]
        norm_num⟩
    · exact ⟨JSNum.num (-1), by
        simp only [getColorByChangePercentJS, JSNum.abs, JSNum.lt, JSNum.gt, JSNum.ge]
        norm_num⟩
    · exact ⟨JSNum.nan, rfl⟩

/-- C10 witness: a concrete high positive change lands in the palette,
and the most saturated red is attained by some input. -/
theorem colorPolicy_total_eleven_witness :
    getColorByChangePercentJS (JSNum.num (26/5)) ∈ colorPalette ∧
    (∃ v : JSNum, getColorByChangePercentJS v = "#DC2626") :=
  ⟨colorPolicy_total_eleven.1 (JSNum.num (26/5)),
   colorPolicy_total_eleven.2.2.2.1 "#DC2626" (by decide)⟩

/-- C6: the color policy on finite changes.  Inside the open band of
radius 0.01 the result is the neutral gray, including both signs; at or
beyond 0.01 a positive change lands in the five-step red ladder and a
negative one in the five-step green ladder, bucketed by absolute value
with thresholds at 1, 2, 3 and 4, the fifth and most saturated step
covering everything at or beyond 4, and magnitudes below 1 taking the
least saturated step of their ladder rather than neutral. -/
theorem colorPolicy_buckets (c : ℚ) :
    (|c| < 1/100 → getColorByChangePercent c = "#6B7280") ∧
    (1/100 ≤ c → getColorByChangePercent c ∈ redLadder) ∧
    (c ≤ -(1/100) → getColorByChangePercent c ∈ greenLadder) ∧
    (4 ≤ c → getColorByChangePercent c = "#DC2626") ∧
    (3 ≤ c → c < 4 → getColorByChangePercent c = "#EF4444") ∧
    (2 ≤ c → c < 3 → getColorByChangePercent c = "#F87171") ∧
    (1 ≤ c → c < 2 → getColorByChangePercent c = "#FCA5A5") ∧
    (1/100 ≤ c → c < 1 → getColorByChangePercent c = "#FEE2E2") ∧
    (c ≤ -4 → getColorByChangePercent c = "#059669") ∧
    (-4 < c → c ≤ -3 → getColorByChangePercent c = "#10B981") ∧
    (-3 < c → c ≤ -2 → getColorByChangePercent c = "#34D399") ∧
    (-2 < c → c ≤ -1 → getColorByChangePercent c = "#6EE7B7") ∧
    (-1 < c → c ≤ -(1/100) → getColorByChangePercent c = "#D1FAE5") := by
  have habs1 : c ≤ |c| := le_abs_self c
  have habs2 : -c ≤ |c| := neg_le_abs c
  refine ⟨?_, ?_, ?_, ?_, ?_, ?_, ?_, ?_, ?_, ?_, ?_, ?_, ?_⟩
  · intro h
    rw [getColorByChangePercent, if_pos h]
  · intro h
    rw [getColorByChangePercent, if_neg (by push_neg; linarith), if_pos (by linarith)]
    split_ifs <;> simp [redLadder]
  · intro h
    have habs : |c| = -c := abs_of_nonpos (by linarith)
    rw [getColorByChangePercent, if_neg (by push_neg; rw [habs]; linarith),
      if_neg (by push_neg; linarith)]
    split_ifs <;> simp [greenLadder]
  · intro h
    rw [getColorByChangePercent, if_neg (by push_neg; linarith), if_pos (by linarith),
      if_pos (by linarith)]
  · intro h1 h2
    rw [getColorByChangePercent, if_neg (by push_neg; linarith), if_pos (by linarith),
      if_neg (by linarith), if_pos (by linarith)]
  · intro h1 h2
    rw [getColorByChangePercent, if_neg (by push_neg; linarith), if_pos (by linarith),
      if_neg (by linarith), if_neg (by linarith), if_pos (by linarith)]
  · intro h1 h2
    rw [getColorByChangePercent, if_neg (by push_neg; linarith), if_pos (by linarith),
      if_neg (by linarith), if_neg (by linarith), if_neg (by linarith), if_pos (by linarith)]
  · intro h1 h2
    rw [getColorByChangePercent, if_neg (by push_neg; linarith), if_pos (by linarith),
      if_neg (by linarith), if_neg (by linarith), if_neg (by linarith), if_neg (by linarith)]
  · intro h
    have habs : |c| = -c := abs_of_nonpos (by linarith)
    rw [getColorByChangePercent, if_neg (by push_neg; rw [habs]; linarith),
      if_neg (by push_neg; linarith), if_pos (by rw [habs]; linarith)]
  · intro h1 h2
    have habs : |c| = -c := abs_of_nonpos (by linarith)
    rw [getColorByChangePercent, if_neg (by push_neg; rw [habs]; linarith),
      if_neg (by push_neg; linarith), if_neg (by rw [habs]; linarith),
      if_pos (by rw [habs]; linarith)]
  · intro h1 h2
    have habs : |c| = -c := abs_of_nonpos (by linarith)
    rw [getColorByChangePercent, if_neg (by push_neg; rw [habs]; linarith),
      if_neg (by push_neg; linarith), if_neg (by rw [habs]; linarith),
      if_neg (by rw [habs]; linarith), if_pos (by rw [habs]; linarith)]
  · intro h1 h2
    have habs : |c| = -c := abs_of_nonpos (by linarith)
    rw [getColorByChangePercent, if_neg (by push_neg; rw [habs]; linarith),
      if_neg (by push_neg; linarith), if_neg (by rw [habs]; linarith),
      if_neg (by rw [habs]; linarith), if_neg (by rw [habs]; linarith),
      if_pos (by rw [habs]; linarith)]
  · intro h1 h2
    have habs : |c| = -c := abs_of_nonpos (by linarith)
    rw [getColorByChangePercent, if_neg (by push_neg; rw [habs]; linarith),
      if_neg (by push_neg; linarith), if_neg (by rw [habs]; linarith),
      if_neg (by rw [habs]; linarith), if_neg (by rw [habs]; linarith),
      if_neg (by rw [habs]; linarith)]

/-- C6 witness: 5.2 maps to the most saturated red, both signed values
of magnitude 0.005 and the value -0.003 map to neutral gray, and -4.5
maps to the most saturated green. -/
theorem colorPolicy_buckets_witness :
    getColorByChangePercent (26/5) = "#DC2626" ∧
    getColorByChangePercent (-(3/1000)) = "#6B7280" ∧
    getColorByChangePercent (-(9/2)) = "#059669" ∧
    getColorByChangePercent (1/200) = "#6B7280" ∧
    getColorByChangePercent (-(1/200)) = "#6B7280" :=
  ⟨(colorPolicy_buckets (26/5)).2.2.2.1 (by norm_num),
   (colorPolicy_buckets (-(3/1000))).1 (by rw [abs_lt]; norm_num),
   (colorPolicy_buckets (-(9/2))).2.2.2.2.2.2.2.2.1 (by norm_num),
   (colorPolicy_buckets (1/200)).1 (by rw [abs_lt]; norm_num),
   (colorPolicy_buckets (-(1/200))).1 (by rw [abs_lt]; norm_num)⟩

/-- C7: the label fit gates.  The name label is empty whenever the cell
is below 30 by 15 and the percent label is empty whenever the cell is
below 40 by 25, regardless of the text; the percent gate is strictly
stricter, so a cell passing it also passes the name gate while a 35 by
20 cell shows a name but no percent; a 20 by 10 cell yields no name
label and a 100 by 40 cell yields both labels. -/
theorem labelFit_gates (w h cp : ℚ) (name : String) :
    (w < 30 ∨ h < 15 → stockNameLabel w h name = "") ∧
    (w < 40 ∨ h < 25 → stockPercentLabel w h cp = "") ∧
    (stockPercentLabel w h cp ≠ "" → ¬ (w < 30 ∨ h < 15)) ∧
    stockNameLabel 20 10 name = "" ∧
    stockNameLabel 100 40 "贵州茅台" ≠ "" ∧
    stockPercentLabel 100 40 cp ≠ "" ∧
    stockNameLabel 35 20 "贵州茅台" ≠ "" ∧
    stockPercentLabel 35 20 cp = "" := by
  have hpercent : ∀ w2 h2 : ℚ, ¬ (w2 < 40 ∨ h2 < 25) → stockPercentLabel w2 h2 cp ≠ "" := by
    intro w2 h2 hgate heq
    rw [stockPercentLabel, if_neg hgate] at heq
    have hlen := congrArg String.length heq
    rw [String.length_append, String.length_append] at hlen
    have h1 : String.length "%" = 1 := rfl
    have h0 : String.length "" = 0 := rfl
    rw [h1, h0] at hlen
    omega
  refine ⟨?_, ?_, ?_, ?_, ?_, ?_, ?_, ?_⟩
  · intro hlt
    rw [stockNameLabel, if_pos hlt]
  · intro hlt
    rw [stockPercentLabel, if_pos hlt]
  · intro hne
    have hgate : ¬ (w < 40 ∨ h < 25) := by
      intro hlt
      exact hne (by rw [stockPercentLabel, if_pos hlt])
    push_neg at hgate ⊢
    exact ⟨by linarith [hgate.1], by linarith [hgate.2]⟩
  · rw [stockNameLabel, if_pos (Or.inl (by norm_num))]
  · have h8 : ⌊(100 : ℚ) / 12⌋ = 8 := by norm_num
    simp only [stockNameLabel, h8]
    norm_num
    decide
  · exact hpercent 100 40 (by push_neg; norm_num)
  · have h2 : ⌊(35 : ℚ) / 12⌋ = 2 := by norm_num
    simp only [stockNameLabel, h2]
    norm_num
    decide
  · rw [stockPercentLabel, if_pos (Or.inl (by norm_num))]

/-- C7 witness: the gates at concrete cells: 20 by 10 yields no name
label, 35 by 20 yields a name but no percent, and a shown percent at
100 by 40 implies the name gate passes. -/
theorem labelFit_gates_witness :
    stockNameLabel 20 10 "贵州茅台" = "" ∧
    stockPercentLabel 35 20 (5/2) = "" ∧
    stockNameLabel 35 20 "贵州茅台" ≠ "" ∧
    ¬ ((100 : ℚ) < 30 ∨ (40 : ℚ) < 15) :=
  ⟨(labelFit_gates 20 10 (5/2) "贵州茅台").2.2.2.1,
   (labelFit_gates 35 20 (5/2) "贵州茅台").2.2.2.2.2.2.2,
   (labelFit_gates 35 20 (5/2) "贵州茅台").2.2.2.2.2.2.1,
   (labelFit_gates 100 40 (5/2) "贵州茅台").2.2.1
     ((labelFit_gates 100 40 (5/2) "贵州茅台").2.2.2.2.2.1)⟩

/-- C9 witness: a concrete empty group aggregates to NaN, while a
concrete one-stock group does not. -/
theorem emptyGroup_changePercent_nan_witness :
    (buildGroup "bank" "银行" []).changePercent = JSNum.nan ∧
    ((buildGroup "bank" "银行" [⟨"600519", "贵州茅台", 1800, 10, 5/2, 21000, 100⟩]).changePercent
      = JSNum.nan ↔ ([⟨"600519", "贵州茅台", 1800, 10, 5/2, 21000, 100⟩] : List Stock) = []) :=
  ⟨(emptyGroup_changePercent_nan "bank" "银行" []).1,
   (emptyGroup_changePercent_nan "bank" "银行"
     [⟨"600519", "贵州茅台", 1800, 10, 5/2, 21000, 100⟩]).2⟩

end WindRider
